import Mathlib

/-!
# Funding-rate monitor: shallow embedding and verification

Shallow embedding of the core logic of the `Funding_rate_monitor` repository:

* `fr_monitor/arbitrage_detector.py` — pair matcher (`_find_arbitrage_pairs`,
  `_normalize_symbol`, `_normalize_side`);
* `fr_monitor/funding_rate_monitor.py` — rate integration
  (`get_funding_rates`, `calculate_rate_difference`);
* `FR_monitor_v2.py` — alert decision (`_check_for_alerts`) and summary flow
  (`send_summary_report`);
* `fr_monitor/statistics_collector.py` — the statistics aggregator.

Python `dict`s are embedded as insertion-ordered association lists over
`String` keys; `dict[k] = v` is `upsert` (which keeps the position of an
existing key, as CPython does), `k in d` / `d[k]` is `alookup`.  Python
floats are embedded as `ℚ`.  Wall-clock reads (`time.time()`) are passed in
as explicit `ℚ` parameters.  I/O (HTTP fetches, Telegram delivery) is
represented by the data it returns, or, for delivery, by a Boolean success
flag at the call site that consumes it.
-/

namespace FRM

/-- Lookup in an association list, mirroring Python `d[k]` / `k in d`. -/
def alookup (k : String) : List (String × α) → Option α
  | [] => none
  | (k', v) :: rest => if k' = k then some v else alookup k rest

/-- Insertion mirroring Python `d[k] = v`: overwrite in place if the key is
present (CPython dicts keep the original position), else append. -/
def upsert (k : String) (v : α) : List (String × α) → List (String × α)
  | [] => [(k, v)]
  | (k', v') :: rest =>
      if k' = k then (k', v) :: rest else (k', v') :: upsert k v rest

/-- The keys of an association list, in order. -/
def dkeys (m : List (String × α)) : List String := m.map Prod.fst

theorem upsert_cons_self (k : String) (v v' : α) (tl : List (String × α)) :
    upsert k v ((k, v') :: tl) = (k, v) :: tl := by
  simp [upsert]

theorem upsert_cons_ne (h : k' ≠ k) (v v' : α) (tl : List (String × α)) :
    upsert k v ((k', v') :: tl) = (k', v') :: upsert k v tl := by
  simp [upsert, h]

theorem alookup_cons_self (k : String) (v : α) (tl : List (String × α)) :
    alookup k ((k, v) :: tl) = some v := by
  simp [alookup]

theorem alookup_cons_ne (h : k' ≠ k) (v : α) (tl : List (String × α)) :
    alookup k ((k', v) :: tl) = alookup k tl := by
  simp [alookup, h]

theorem dkeys_cons (k : String) (v : α) (tl : List (String × α)) :
    dkeys ((k, v) :: tl) = k :: dkeys tl := rfl

theorem alookup_upsert_self (k : String) (v : α) (m : List (String × α)) :
    alookup k (upsert k v m) = some v := by
  induction m with
  | nil => simp [upsert, alookup]
  | cons hd tl ih =>
      obtain ⟨k', v'⟩ := hd
      by_cases h : k' = k
      · subst h
        rw [upsert_cons_self, alookup_cons_self]
      · rw [upsert_cons_ne h, alookup_cons_ne h, ih]

theorem alookup_upsert_ne (h : k₀ ≠ k) (v : α) (m : List (String × α)) :
    alookup k₀ (upsert k v m) = alookup k₀ m := by
  induction m with
  | nil =>
      have hkk : k ≠ k₀ := fun hh => h hh.symm
      simp [upsert, alookup, hkk]
  | cons hd tl ih =>
      obtain ⟨k', v'⟩ := hd
      by_cases hk : k' = k
      · subst hk
        have hkk : k' ≠ k₀ := fun hh => h hh.symm
        rw [upsert_cons_self, alookup_cons_ne hkk, alookup_cons_ne hkk]
      · rw [upsert_cons_ne hk]
        by_cases hk0 : k' = k₀
        · subst hk0
          rw [alookup_cons_self, alookup_cons_self]
        · have hkk : k' ≠ k₀ := hk0
          rw [alookup_cons_ne hkk, alookup_cons_ne hkk, ih]

theorem alookup_eq_none_of_not_mem_dkeys {m : List (String × α)}
    (h : k ∉ dkeys m) : alookup k m = none := by
  induction m with
  | nil => rfl
  | cons hd tl ih =>
      obtain ⟨k', v'⟩ := hd
      rw [dkeys_cons] at h
      simp only [List.mem_cons, not_or] at h
      have hk : k' ≠ k := fun hh => h.1 hh.symm
      rw [alookup_cons_ne hk]
      exact ih h.2

theorem mem_of_alookup_eq_some {m : List (String × α)}
    (h : alookup k m = some v) : (k, v) ∈ m := by
  induction m with
  | nil => simp [alookup] at h
  | cons hd tl ih =>
      obtain ⟨k', v'⟩ := hd
      by_cases hk : k' = k
      · subst hk
        rw [alookup_cons_self] at h
        cases h
        exact List.mem_cons_self _ _
      · rw [alookup_cons_ne hk] at h
        exact List.mem_cons_of_mem _ (ih h)

theorem mem_dkeys_upsert {m : List (String × α)} (x k : String) (v : α) :
    x ∈ dkeys (upsert k v m) ↔ x = k ∨ x ∈ dkeys m := by
  induction m with
  | nil => simp [upsert, dkeys]
  | cons hd tl ih =>
      obtain ⟨k', v'⟩ := hd
      by_cases hk : k' = k
      · subst hk
        rw [upsert_cons_self, dkeys_cons, dkeys_cons]
        simp only [List.mem_cons]
        tauto
      · rw [upsert_cons_ne hk, dkeys_cons, dkeys_cons]
        simp only [List.mem_cons]
        rw [ih]
        tauto

theorem dkeys_upsert_nodup {m : List (String × α)} (h : (dkeys m).Nodup)
    (k : String) (v : α) : (dkeys (upsert k v m)).Nodup := by
  induction m with
  | nil => simp [upsert, dkeys]
  | cons hd tl ih =>
      obtain ⟨k', v'⟩ := hd
      rw [dkeys_cons, List.nodup_cons] at h
      by_cases hk : k' = k
      · subst hk
        rw [upsert_cons_self, dkeys_cons, List.nodup_cons]
        exact h
      · rw [upsert_cons_ne hk, dkeys_cons, List.nodup_cons]
        refine ⟨?_, ih h.2⟩
        intro hc
        rcases (mem_dkeys_upsert k' k v).1 hc with hc | hc
        · exact hk hc
        · exact h.1 hc

/-! ## Pair matcher (`fr_monitor/arbitrage_detector.py`) -/

/-- A raw position as returned by an exchange client: its exchange-native
symbol, side vocabulary and (non-negative in practice) size. -/
structure RawPosition where
  symbol : String
  side : String
  size : ℚ
deriving DecidableEq, Repr

/-- Python `str.upper()` (character-wise, which agrees with Python on the
ASCII vocabulary the exchanges use). -/
def strUpper (s : String) : String := ⟨s.data.map Char.toUpper⟩

/-- Python `str.lower()` (character-wise, as above). -/
def strLower (s : String) : String := ⟨s.data.map Char.toLower⟩

/-- `ArbitrageDetector._normalize_symbol`: every branch of the source
returns the symbol unchanged (both exchanges use e.g. `BTCUSDT`). -/
def normalize_symbol (symbol exchange : String) : String :=
  if strLower exchange = "binance" then symbol
  else if strLower exchange = "bybit" then symbol
  else symbol

/-- `ArbitrageDetector._normalize_side`: Binance sides are upper-cased;
Bybit `Buy`/`Sell` map to `LONG`/`SHORT`, anything else is upper-cased. -/
def normalize_side (side exchange : String) : String :=
  if strLower exchange = "binance" then strUpper side
  else if strLower exchange = "bybit" then
    if strUpper side = "BUY" then "LONG"
    else if strUpper side = "SELL" then "SHORT"
    else strUpper side
  else strUpper side

/-- One value of the per-exchange position maps built inside
`_find_arbitrage_pairs` (`binance_pos_map` / `bybit_pos_map`). -/
structure PosEntry where
  side : String
  size : ℚ
  original_data : RawPosition
deriving DecidableEq, Repr

/-- The entry stored for one raw position. -/
def mkPosEntry (exchange : String) (pos : RawPosition) : PosEntry :=
  ⟨normalize_side pos.side exchange, pos.size, pos⟩

/-- The `binance_pos_map` / `bybit_pos_map` construction loop of
`_find_arbitrage_pairs`: a dict keyed by normalized symbol,
last-write-wins on duplicates. -/
def buildPosMap (exchange : String) (positions : List RawPosition) :
    List (String × PosEntry) :=
  positions.foldl
    (fun m pos => upsert (normalize_symbol pos.symbol exchange) (mkPosEntry exchange pos) m) []

/-- One matched arbitrage pair (the dict stored in `arbitrage_pairs[symbol]`). -/
structure PairInfo where
  symbol : String
  long_exchange : String
  short_exchange : String
  long_size : ℚ
  short_size : ℚ
  size_difference : ℚ
  binance_position : RawPosition
  bybit_position : RawPosition
deriving DecidableEq, Repr

/-- Construction of the pair dict once the side and size checks passed:
the leg whose (normalized) Binance side is `LONG` becomes the long leg. -/
def mkPair (sym : String) (binance_pos bybit_pos : PosEntry) : PairInfo :=
  let size_diff := |binance_pos.size - bybit_pos.size|
  if binance_pos.side = "LONG" then
    ⟨sym, "binance", "bybit", binance_pos.size, bybit_pos.size, size_diff,
      binance_pos.original_data, bybit_pos.original_data⟩
  else
    ⟨sym, "bybit", "binance", bybit_pos.size, binance_pos.size, size_diff,
      binance_pos.original_data, bybit_pos.original_data⟩

/-- The main loop of `_find_arbitrage_pairs` over the Binance map: skip a
symbol absent from the Bybit map, skip equal sides, skip when the sizes
differ by more than 5% of their average (the division is guarded by
`size_avg > 0`), else emit the pair keyed by the symbol. -/
def find_arbitrage_pairs_go (bybit_pos_map : List (String × PosEntry)) :
    List (String × PosEntry) → List (String × PairInfo)
  | [] => []
  | (sym, binance_pos) :: rest =>
    match alookup sym bybit_pos_map with
    | none => find_arbitrage_pairs_go bybit_pos_map rest
    | some bybit_pos =>
      if binance_pos.side = bybit_pos.side then
        find_arbitrage_pairs_go bybit_pos_map rest
      else
        let size_diff := |binance_pos.size - bybit_pos.size|
        let size_avg := (binance_pos.size + bybit_pos.size) / 2
        if size_avg > 0 ∧ size_diff / size_avg > 5 / 100 then
          find_arbitrage_pairs_go bybit_pos_map rest
        else
          (sym, mkPair sym binance_pos bybit_pos) :: find_arbitrage_pairs_go bybit_pos_map rest

/-- `ArbitrageDetector._find_arbitrage_pairs`. -/
def find_arbitrage_pairs (binance_positions bybit_positions : List RawPosition) :
    List (String × PairInfo) :=
  find_arbitrage_pairs_go (buildPosMap "bybit" bybit_positions)
    (buildPosMap "binance" binance_positions)

/-! ## Differential engine (`fr_monitor/funding_rate_monitor.py`,
`FR_monitor_v2.py`) -/

/-- A raw Binance premium-index record (the fields read by the monitor). -/
structure BinanceRawRate where
  lastFundingRate : ℚ
  nextFundingTime : ℤ
  markPrice : ℚ
deriving DecidableEq, Repr

/-- A raw Bybit funding record (the fields read by the monitor). -/
structure BybitRawRate where
  fundingRate : ℚ
  nextFundingTime : ℤ
  fundingInterval : ℤ
deriving DecidableEq, Repr

/-- One per-exchange entry of `funding_data[symbol]` as built by
`FundingRateMonitor.get_funding_rates`: the rate in percent, the next
funding timestamp, and the `error` marker present exactly when the fetch
failed (the exchange-specific display fields `mark_price` /
`funding_interval` are not read by any downstream logic and are omitted). -/
structure RateInfo where
  rate : ℚ
  next_funding_time : ℤ
  error : Option String
deriving DecidableEq, Repr

/-- The `symbol_data` dict built for one symbol inside
`get_funding_rates`: a found raw rate is scaled to percent, a missing one
is replaced by rate `0.0` together with the error marker. -/
def mkSymbolData (sym : String) (binance_rates : List (String × BinanceRawRate))
    (bybit_rates : List (String × BybitRawRate)) : List (String × RateInfo) :=
  let binance_entry : RateInfo :=
    match alookup sym binance_rates with
    | some r => ⟨r.lastFundingRate * 100, r.nextFundingTime, none⟩
    | none => ⟨0, 0, some "API 查詢失敗"⟩
  let bybit_entry : RateInfo :=
    match alookup sym bybit_rates with
    | some r => ⟨r.fundingRate * 100, r.nextFundingTime, none⟩
    | none => ⟨0, 0, some "API 查詢失敗"⟩
  [("binance", binance_entry), ("bybit", bybit_entry)]

/-- `FundingRateMonitor.get_funding_rates`, with each exchange's fetched
rate dict passed in (an exchange-level fetch failure is the empty dict,
as in the source's `return_exceptions` handling). -/
def get_funding_rates (symbols : List String)
    (binance_rates : List (String × BinanceRawRate))
    (bybit_rates : List (String × BybitRawRate)) :
    List (String × List (String × RateInfo)) :=
  symbols.foldl (fun fd sym => upsert sym (mkSymbolData sym binance_rates bybit_rates) fd) []

/-- `FundingRateMonitor.calculate_rate_difference`: short-leg rate minus
long-leg rate; a missing key (`KeyError`) yields `0.0`. -/
def calculate_rate_difference (funding_info : List (String × RateInfo))
    (long_exchange short_exchange : String) : ℚ :=
  match alookup long_exchange funding_info, alookup short_exchange funding_info with
  | some long_info, some short_info => short_info.rate - long_info.rate
  | _, _ => 0

/-- `FRMonitorV2._check_for_alerts`: keep a pair when its symbol has
funding data, both leg exchanges appear in it, and
`short_rate - long_rate <= threshold` (inclusive). -/
def check_for_alerts (threshold : ℚ)
    (funding_data : List (String × List (String × RateInfo))) :
    List (String × PairInfo) → List (String × PairInfo)
  | [] => []
  | (sym, pair_info) :: rest =>
    match alookup sym funding_data with
    | none => check_for_alerts threshold funding_data rest
    | some funding_info =>
      match alookup pair_info.long_exchange funding_info,
          alookup pair_info.short_exchange funding_info with
      | some long_info, some short_info =>
        if short_info.rate - long_info.rate ≤ threshold then
          (sym, pair_info) :: check_for_alerts threshold funding_data rest
        else
          check_for_alerts threshold funding_data rest
      | _, _ => check_for_alerts threshold funding_data rest

/-! ## Statistics aggregator (`fr_monitor/statistics_collector.py`) -/

/-- `CheckResult` (the `timestamp` is the `time.time()` value passed in). -/
structure CheckResult where
  timestamp : ℚ
  success : Bool
  arbitrage_pairs : List (String × PairInfo)
  funding_data : List (String × List (String × RateInfo))
  error_message : Option String
  no_arbitrage_detected : Bool
deriving DecidableEq, Repr

/-- `SymbolStats`. -/
structure SymbolStats where
  symbol : String
  check_count : ℕ
  alert_count : ℕ
  rate_differences : List ℚ
  current_rate_diff : ℚ
deriving DecidableEq, Repr

/-- The dataclass defaults of `SymbolStats`. -/
def SymbolStats.mkDefault (sym : String) : SymbolStats := ⟨sym, 0, 0, [], 0⟩

/-- `SymbolStats.alert_rate`: percentage of checks that alerted, `0.0`
when no check was recorded. -/
def SymbolStats.alert_rate (s : SymbolStats) : ℚ :=
  if s.check_count = 0 then 0
  else ((s.alert_count : ℚ) / (s.check_count : ℚ)) * 100

/-- `SymbolStats.avg_rate_diff`: mean historical spread, `0.0` when the
history is empty. -/
def SymbolStats.avg_rate_diff (s : SymbolStats) : ℚ :=
  if s.rate_differences.isEmpty then 0
  else s.rate_differences.sum / (s.rate_differences.length : ℚ)

/-- `StatisticsCollector` state (`summary_start_time` is the wall-clock
value captured at construction or reset). -/
structure StatisticsCollector where
  check_results : List CheckResult
  symbol_stats : List (String × SymbolStats)
  summary_start_time : ℚ
  no_arbitrage_count : ℕ
deriving DecidableEq, Repr

/-- `StatisticsCollector.__init__` at wall-clock time `now`. -/
def StatisticsCollector.mkInit (now : ℚ) : StatisticsCollector := ⟨[], [], now, 0⟩

/-- One iteration of `StatisticsCollector._update_symbol_stats`: skip a
symbol without funding data; otherwise increment its `check_count`
(creating the default entry first), and when both leg exchanges appear in
the funding info also append the spread and set `current_rate_diff`. -/
def update_one_symbol (funding_data : List (String × List (String × RateInfo)))
    (stats_map : List (String × SymbolStats)) (entry : String × PairInfo) :
    List (String × SymbolStats) :=
  match alookup entry.1 funding_data with
  | none => stats_map
  | some funding_info =>
    let stats := (alookup entry.1 stats_map).getD (SymbolStats.mkDefault entry.1)
    let stats := { stats with check_count := stats.check_count + 1 }
    let stats :=
      match alookup entry.2.long_exchange funding_info,
          alookup entry.2.short_exchange funding_info with
      | some long_info, some short_info =>
        let rate_diff := short_info.rate - long_info.rate
        { stats with
            rate_differences := stats.rate_differences ++ [rate_diff],
            current_rate_diff := rate_diff }
      | _, _ => stats
    upsert entry.1 stats stats_map

/-- `StatisticsCollector._update_symbol_stats`. -/
def update_symbol_stats (stats_map : List (String × SymbolStats))
    (arbitrage_pairs : List (String × PairInfo))
    (funding_data : List (String × List (String × RateInfo))) :
    List (String × SymbolStats) :=
  arbitrage_pairs.foldl (update_one_symbol funding_data) stats_map

/-- `StatisticsCollector.record_check_result`: count an empty pair dict,
append the `CheckResult`, and update the per-symbol stats only when the
check succeeded and both dicts are non-empty (Python truthiness of
`success and arbitrage_pairs and funding_data`). -/
def record_check_result (st : StatisticsCollector) (now : ℚ) (success : Bool)
    (arbitrage_pairs : List (String × PairInfo))
    (funding_data : List (String × List (String × RateInfo)))
    (error_message : Option String) : StatisticsCollector :=
  let no_arbitrage_detected := arbitrage_pairs.isEmpty
  let check_result : CheckResult :=
    ⟨now, success, arbitrage_pairs, funding_data, error_message, no_arbitrage_detected⟩
  { st with
      no_arbitrage_count :=
        st.no_arbitrage_count + (if no_arbitrage_detected then 1 else 0),
      check_results := st.check_results ++ [check_result],
      symbol_stats :=
        if success && !arbitrage_pairs.isEmpty && !funding_data.isEmpty then
          update_symbol_stats st.symbol_stats arbitrage_pairs funding_data
        else st.symbol_stats }

/-- `StatisticsCollector.record_alert`: create the default entry when the
symbol is new, then increment its `alert_count`. -/
def record_alert (st : StatisticsCollector) (symbol : String) : StatisticsCollector :=
  let stats := (alookup symbol st.symbol_stats).getD (SymbolStats.mkDefault symbol)
  { st with
      symbol_stats :=
        upsert symbol { stats with alert_count := stats.alert_count + 1 } st.symbol_stats }

/-- `StatisticsCollector.get_total_checks`. -/
def get_total_checks (st : StatisticsCollector) : ℕ := st.check_results.length

/-- `StatisticsCollector.get_successful_checks`. -/
def get_successful_checks (st : StatisticsCollector) : ℕ :=
  (st.check_results.filter (fun r => r.success)).length

/-- `StatisticsCollector.get_failed_checks`. -/
def get_failed_checks (st : StatisticsCollector) : ℕ :=
  (st.check_results.filter (fun r => !r.success)).length

/-- `StatisticsCollector.get_total_alerts`. -/
def get_total_alerts (st : StatisticsCollector) : ℕ :=
  (st.symbol_stats.map (fun p => p.2.alert_count)).sum

/-- `StatisticsCollector.reset_stats` at wall-clock time `now`: clears the
check history and per-symbol stats and restarts the window. -/
def reset_stats (st : StatisticsCollector) (now : ℚ) : StatisticsCollector :=
  let _ := st
  ⟨[], [], now, 0⟩

/-- `FRMonitorV2.send_summary_report`: the report is generated and sent
inside a `try` block with `reset_stats` after the send.  But
`TelegramNotifier.send_message` catches every exception itself and
returns a success Boolean instead of raising, `send_formatted_message`
just forwards it, and this caller discards the returned Boolean — so a
failed delivery (`delivered = false`) still reaches `reset_stats`.  The
`except` branch that would skip the reset is only reachable from report
generation, which is pure string formatting of the collector's fields
and does not raise. -/
def send_summary_report (st : StatisticsCollector) (delivered : Bool) (now : ℚ) :
    StatisticsCollector :=
  let _ := delivered
  reset_stats st now

/-- The `alert_count` the collector currently holds for a symbol (0 when
the symbol has no entry). -/
def alert_count_of (st : StatisticsCollector) (symbol : String) : ℕ :=
  ((alookup symbol st.symbol_stats).map SymbolStats.alert_count).getD 0

/-! ## Lemmas about the alert decision -/

/-- The per-pair condition that `check_for_alerts` keeps a pair. -/
def alert_pred (threshold : ℚ)
    (funding_data : List (String × List (String × RateInfo)))
    (entry : String × PairInfo) : Bool :=
  match alookup entry.1 funding_data with
  | none => false
  | some funding_info =>
    match alookup entry.2.long_exchange funding_info,
        alookup entry.2.short_exchange funding_info with
    | some long_info, some short_info =>
        decide (short_info.rate - long_info.rate ≤ threshold)
    | _, _ => false

theorem check_for_alerts_cons (threshold : ℚ)
    (funding_data : List (String × List (String × RateInfo)))
    (sym : String) (pair_info : PairInfo) (rest : List (String × PairInfo)) :
    check_for_alerts threshold funding_data ((sym, pair_info) :: rest) =
      (if alert_pred threshold funding_data (sym, pair_info) then [(sym, pair_info)] else []) ++
        check_for_alerts threshold funding_data rest := by
  simp only [check_for_alerts]
  cases hfd : alookup sym funding_data with
  | none => simp [alert_pred, hfd]
  | some funding_info =>
      cases hl : alookup pair_info.long_exchange funding_info with
      | none => simp [alert_pred, hfd, hl]
      | some long_info =>
          cases hs : alookup pair_info.short_exchange funding_info with
          | none => simp [alert_pred, hfd, hl, hs]
          | some short_info =>
              by_cases hcond : short_info.rate - long_info.rate ≤ threshold
              · simp [alert_pred, hfd, hl, hs, hcond]
              · simp [alert_pred, hfd, hl, hs, hcond]

theorem check_for_alerts_eq_filter (threshold : ℚ)
    (funding_data : List (String × List (String × RateInfo)))
    (pairs : List (String × PairInfo)) :
    check_for_alerts threshold funding_data pairs =
      pairs.filter (alert_pred threshold funding_data) := by
  induction pairs with
  | nil => rfl
  | cons hd rest ih =>
      obtain ⟨sym, pair_info⟩ := hd
      rw [check_for_alerts_cons, List.filter_cons, ih]
      by_cases h : alert_pred threshold funding_data (sym, pair_info)
      · simp [h]
      · simp [h]

theorem mem_check_for_alerts {threshold : ℚ}
    {funding_data : List (String × List (String × RateInfo))}
    {pairs : List (String × PairInfo)} {sym : String} {pair_info : PairInfo} :
    (sym, pair_info) ∈ check_for_alerts threshold funding_data pairs ↔
      (sym, pair_info) ∈ pairs ∧
        alert_pred threshold funding_data (sym, pair_info) = true := by
  rw [check_for_alerts_eq_filter, List.mem_filter]

/-! ## Lemmas about the pair matcher -/

theorem buildPosMap_keys_nodup (exchange : String) (positions : List RawPosition) :
    (dkeys (buildPosMap exchange positions)).Nodup := by
  suffices aux : ∀ (ps : List RawPosition) (acc : List (String × PosEntry)),
      (dkeys acc).Nodup →
      (dkeys (ps.foldl
        (fun m pos =>
          upsert (normalize_symbol pos.symbol exchange) (mkPosEntry exchange pos) m)
        acc)).Nodup by
    exact aux positions [] (by simp [dkeys])
  intro ps
  induction ps with
  | nil => intro acc h; exact h
  | cons p rest ih =>
      intro acc h
      rw [List.foldl_cons]
      exact ih _ (dkeys_upsert_nodup h _ _)

theorem find_go_dkeys_sublist (ymap : List (String × PosEntry)) :
    ∀ (m : List (String × PosEntry)),
    (dkeys (find_arbitrage_pairs_go ymap m)).Sublist (dkeys m) := by
  intro m
  induction m with
  | nil => simp [find_arbitrage_pairs_go, dkeys]
  | cons hd rest ih =>
      obtain ⟨sym, bpos⟩ := hd
      rw [dkeys_cons]
      simp only [find_arbitrage_pairs_go]
      cases hy : alookup sym ymap with
      | none => exact ih.cons _
      | some ypos =>
          dsimp only
          by_cases hside : bpos.side = ypos.side
          · rw [if_pos hside]
            exact ih.cons _
          · rw [if_neg hside]
            by_cases hguard : (bpos.size + ypos.size) / 2 > 0 ∧
                |bpos.size - ypos.size| / ((bpos.size + ypos.size) / 2) > 5 / 100
            · rw [if_pos hguard]
              exact ih.cons _
            · rw [if_neg hguard, dkeys_cons]
              exact ih.cons₂ _

theorem find_go_alookup_none (ymap : List (String × PosEntry)) :
    ∀ (m : List (String × PosEntry)) (sym : String) (bpos ypos : PosEntry),
    (dkeys m).Nodup →
    alookup sym m = some bpos →
    alookup sym ymap = some ypos →
    (bpos.size + ypos.size) / 2 > 0 →
    |bpos.size - ypos.size| / ((bpos.size + ypos.size) / 2) > 5 / 100 →
    alookup sym (find_arbitrage_pairs_go ymap m) = none := by
  intro m
  induction m with
  | nil => intro sym bpos ypos _ hb _ _ _; cases hb
  | cons hd rest ih =>
      intro sym bpos ypos hnd hb hy havg hratio
      obtain ⟨k, e⟩ := hd
      rw [dkeys_cons, List.nodup_cons] at hnd
      simp only [find_arbitrage_pairs_go]
      by_cases hk : k = sym
      · subst hk
        rw [alookup_cons_self] at hb
        obtain rfl : e = bpos := Option.some.inj hb
        rw [hy]
        dsimp only
        have hnone : alookup k (find_arbitrage_pairs_go ymap rest) = none := by
          apply alookup_eq_none_of_not_mem_dkeys
          intro hc
          exact hnd.1 ((find_go_dkeys_sublist ymap rest).subset hc)
        by_cases hside : e.side = ypos.side
        · rw [if_pos hside]
          exact hnone
        · rw [if_neg hside, if_pos ⟨havg, hratio⟩]
          exact hnone
      · rw [alookup_cons_ne hk] at hb
        have htail := ih sym bpos ypos hnd.2 hb hy havg hratio
        cases hy2 : alookup k ymap with
        | none => exact htail
        | some yp =>
            dsimp only
            by_cases hside : e.side = yp.side
            · rw [if_pos hside]
              exact htail
            · rw [if_neg hside]
              by_cases hguard : (e.size + yp.size) / 2 > 0 ∧
                  |e.size - yp.size| / ((e.size + yp.size) / 2) > 5 / 100
              · rw [if_pos hguard]
                exact htail
              · rw [if_neg hguard, alookup_cons_ne hk]
                exact htail

theorem find_go_alookup_some (ymap : List (String × PosEntry)) :
    ∀ (m : List (String × PosEntry)) (sym : String) (bpos ypos : PosEntry),
    alookup sym m = some bpos →
    alookup sym ymap = some ypos →
    bpos.side ≠ ypos.side →
    ¬((bpos.size + ypos.size) / 2 > 0 ∧
      |bpos.size - ypos.size| / ((bpos.size + ypos.size) / 2) > 5 / 100) →
    alookup sym (find_arbitrage_pairs_go ymap m) = some (mkPair sym bpos ypos) := by
  intro m
  induction m with
  | nil => intro sym bpos ypos hb _ _ _; cases hb
  | cons hd rest ih =>
      intro sym bpos ypos hb hy hside hguard
      obtain ⟨k, e⟩ := hd
      simp only [find_arbitrage_pairs_go]
      by_cases hk : k = sym
      · subst hk
        rw [alookup_cons_self] at hb
        obtain rfl : e = bpos := Option.some.inj hb
        rw [hy]
        dsimp only
        rw [if_neg hside, if_neg hguard, alookup_cons_self]
      · rw [alookup_cons_ne hk] at hb
        have htail := ih sym bpos ypos hb hy hside hguard
        cases hy2 : alookup k ymap with
        | none => exact htail
        | some yp =>
            dsimp only
            by_cases hside2 : e.side = yp.side
            · rw [if_pos hside2]
              exact htail
            · rw [if_neg hside2]
              by_cases hguard2 : (e.size + yp.size) / 2 > 0 ∧
                  |e.size - yp.size| / ((e.size + yp.size) / 2) > 5 / 100
              · rw [if_pos hguard2]
                exact htail
              · rw [if_neg hguard2, alookup_cons_ne hk]
                exact htail

theorem mem_upsert {m : List (String × α)} {x k : String} {w v : α}
    (h : (x, w) ∈ upsert k v m) : (x, w) ∈ m ∨ (x = k ∧ w = v) := by
  induction m with
  | nil =>
      simp only [upsert, List.mem_singleton, Prod.mk.injEq] at h
      exact Or.inr h
  | cons hd tl ih =>
      obtain ⟨k', v'⟩ := hd
      by_cases hk : k' = k
      · subst hk
        rw [upsert_cons_self] at h
        rcases List.mem_cons.mp h with h | h
        · obtain ⟨rfl, rfl⟩ := Prod.mk.injEq .. ▸ h
          exact Or.inr ⟨rfl, rfl⟩
        · exact Or.inl (List.mem_cons_of_mem _ h)
      · rw [upsert_cons_ne hk] at h
        rcases List.mem_cons.mp h with h | h
        · exact Or.inl (List.mem_cons.mpr (Or.inl h))
        · rcases ih h with h | h
          · exact Or.inl (List.mem_cons_of_mem _ h)
          · exact Or.inr h

/-- Every entry of a position map comes from an input position: its key
is that position's normalized symbol and its value the normalized entry. -/
theorem buildPosMap_mem (exchange : String) (positions : List RawPosition)
    (sym : String) (e : PosEntry) (h : (sym, e) ∈ buildPosMap exchange positions) :
    ∃ p ∈ positions, sym = normalize_symbol p.symbol exchange ∧ e = mkPosEntry exchange p := by
  suffices aux : ∀ (ps : List RawPosition) (acc : List (String × PosEntry)),
      (sym, e) ∈ ps.foldl
        (fun m pos =>
          upsert (normalize_symbol pos.symbol exchange) (mkPosEntry exchange pos) m) acc →
      (sym, e) ∈ acc ∨
        ∃ p ∈ ps, sym = normalize_symbol p.symbol exchange ∧ e = mkPosEntry exchange p by
    rcases aux positions [] h with hc | hc
    · cases hc
    · exact hc
  intro ps
  induction ps with
  | nil => intro acc h; exact Or.inl h
  | cons p rest ih =>
      intro acc h
      rw [List.foldl_cons] at h
      rcases ih _ h with h | ⟨q, hq, hsym, he⟩
      · rcases mem_upsert h with h | ⟨hsym, he⟩
        · exact Or.inl h
        · exact Or.inr ⟨p, List.mem_cons_self _ _, hsym, he⟩
      · exact Or.inr ⟨q, List.mem_cons_of_mem _ hq, hsym, he⟩

/-- Every pair the matcher loop emits comes from a Binance map entry and
the Bybit map entry under the same symbol, with differing sides. -/
theorem mem_find_go (ymap : List (String × PosEntry)) :
    ∀ (m : List (String × PosEntry)) (sym : String) (pair_info : PairInfo),
    (sym, pair_info) ∈ find_arbitrage_pairs_go ymap m →
    ∃ bpos ypos, (sym, bpos) ∈ m ∧ alookup sym ymap = some ypos ∧
      bpos.side ≠ ypos.side ∧ pair_info = mkPair sym bpos ypos := by
  intro m
  induction m with
  | nil => intro sym pair_info h; cases h
  | cons hd rest ih =>
      intro sym pair_info h
      obtain ⟨k, e⟩ := hd
      simp only [find_arbitrage_pairs_go] at h
      split at h
      · obtain ⟨bpos, ypos, hmem, hy, hside, hpi⟩ := ih sym pair_info h
        exact ⟨bpos, ypos, List.mem_cons_of_mem _ hmem, hy, hside, hpi⟩
      · rename_i ypos heq
        split at h
        · obtain ⟨bpos, ypos2, hmem, hy, hside, hpi⟩ := ih sym pair_info h
          exact ⟨bpos, ypos2, List.mem_cons_of_mem _ hmem, hy, hside, hpi⟩
        · rename_i hside1
          split at h
          · obtain ⟨bpos, ypos2, hmem, hy, hside, hpi⟩ := ih sym pair_info h
            exact ⟨bpos, ypos2, List.mem_cons_of_mem _ hmem, hy, hside, hpi⟩
          · rcases List.mem_cons.mp h with heq2 | h2
            · obtain ⟨rfl, rfl⟩ := Prod.mk.injEq .. ▸ heq2
              exact ⟨e, ypos, List.mem_cons_self _ _, heq, hside1, rfl⟩
            · obtain ⟨bpos, ypos2, hmem, hy, hside, hpi⟩ := ih sym pair_info h2
              exact ⟨bpos, ypos2, List.mem_cons_of_mem _ hmem, hy, hside, hpi⟩

/-! ## Lemmas about the statistics update -/

theorem update_one_symbol_other
    (funding_data : List (String × List (String × RateInfo)))
    (stats_map : List (String × SymbolStats)) (k : String) (q : PairInfo)
    (sym : String) (h : k ≠ sym) :
    alookup sym (update_one_symbol funding_data stats_map (k, q)) = alookup sym stats_map := by
  unfold update_one_symbol
  cases hfd : alookup k funding_data with
  | none => rfl
  | some funding_info =>
      exact alookup_upsert_ne (fun hh => h hh.symm) _ _

theorem update_symbol_stats_not_mem
    {funding_data : List (String × List (String × RateInfo))}
    {sym : String} :
    ∀ {pairs : List (String × PairInfo)} (stats_map : List (String × SymbolStats)),
    sym ∉ dkeys pairs →
    alookup sym (update_symbol_stats stats_map pairs funding_data) = alookup sym stats_map := by
  intro pairs
  induction pairs with
  | nil => intro stats_map _; rfl
  | cons hd rest ih =>
      intro stats_map h
      obtain ⟨k, q⟩ := hd
      rw [dkeys_cons] at h
      simp only [List.mem_cons, not_or] at h
      have hstep : update_symbol_stats stats_map ((k, q) :: rest) funding_data =
          update_symbol_stats (update_one_symbol funding_data stats_map (k, q)) rest
            funding_data := rfl
      rw [hstep, ih _ h.2, update_one_symbol_other _ _ _ _ _ (fun hh => h.1 hh.symm)]

/-- The `SymbolStats` value `_update_symbol_stats` leaves for a symbol
whose pair had both leg rates available. -/
def updated_symbol_stats (old : Option SymbolStats) (sym : String) (rate_diff : ℚ) :
    SymbolStats :=
  let s := old.getD (SymbolStats.mkDefault sym)
  { s with
      check_count := s.check_count + 1,
      rate_differences := s.rate_differences ++ [rate_diff],
      current_rate_diff := rate_diff }

theorem update_symbol_stats_mem
    {funding_data : List (String × List (String × RateInfo))}
    {sym : String} {pair_info : PairInfo} {funding_info : List (String × RateInfo)}
    {long_info short_info : RateInfo}
    (hfd : alookup sym funding_data = some funding_info)
    (hl : alookup pair_info.long_exchange funding_info = some long_info)
    (hs : alookup pair_info.short_exchange funding_info = some short_info) :
    ∀ {pairs : List (String × PairInfo)} (stats_map : List (String × SymbolStats)),
    (dkeys pairs).Nodup → (sym, pair_info) ∈ pairs →
    alookup sym (update_symbol_stats stats_map pairs funding_data) =
      some (updated_symbol_stats (alookup sym stats_map) sym
        (short_info.rate - long_info.rate)) := by
  intro pairs
  induction pairs with
  | nil => intro _ _ hmem; cases hmem
  | cons hd rest ih =>
      intro stats_map hnd hmem
      obtain ⟨k, q⟩ := hd
      rw [dkeys_cons, List.nodup_cons] at hnd
      have hstep : update_symbol_stats stats_map ((k, q) :: rest) funding_data =
          update_symbol_stats (update_one_symbol funding_data stats_map (k, q)) rest
            funding_data := rfl
      rcases List.mem_cons.mp hmem with heq | hmem'
      · obtain ⟨hk, hq⟩ := Prod.mk.injEq .. ▸ heq
        subst hk
        subst hq
        rw [hstep, update_symbol_stats_not_mem _ hnd.1]
        unfold update_one_symbol updated_symbol_stats
        simp only [hfd, hl, hs]
        exact alookup_upsert_self _ _ _
      · have hsymrest : sym ∈ dkeys rest := by
          exact List.mem_map.mpr ⟨(sym, pair_info), hmem', rfl⟩
        have hk : k ≠ sym := fun h => hnd.1 (h ▸ hsymrest)
        rw [hstep, ih _ hnd.2 hmem', update_one_symbol_other _ _ _ _ _ hk]

theorem alookup_foldl_upsert_symbols (binance_rates : List (String × BinanceRawRate))
    (bybit_rates : List (String × BybitRawRate)) (sym : String) :
    ∀ (symbols : List String) (acc : List (String × List (String × RateInfo))),
    (sym ∈ symbols ∨ alookup sym acc = some (mkSymbolData sym binance_rates bybit_rates)) →
    alookup sym
        (symbols.foldl (fun fd s => upsert s (mkSymbolData s binance_rates bybit_rates) fd) acc) =
      some (mkSymbolData sym binance_rates bybit_rates) := by
  intro symbols
  induction symbols with
  | nil =>
      intro acc h
      rcases h with h | h
      · cases h
      · exact h
  | cons s rest ih =>
      intro acc h
      rw [List.foldl_cons]
      apply ih
      by_cases hs : sym = s
      · subst hs
        right
        exact alookup_upsert_self sym _ acc
      · rcases h with h | h
        · rcases List.mem_cons.mp h with h | h
          · exact absurd h hs
          · exact Or.inl h
        · right
          rw [alookup_upsert_ne hs]
          exact h

/-- For a requested symbol, `get_funding_rates` always holds the symbol
data dict built by `mkSymbolData` (in particular both exchange keys are
always present, even when a fetch failed). -/
theorem alookup_get_funding_rates (symbols : List String)
    (binance_rates : List (String × BinanceRawRate))
    (bybit_rates : List (String × BybitRawRate)) (sym : String) (h : sym ∈ symbols) :
    alookup sym (get_funding_rates symbols binance_rates bybit_rates) =
      some (mkSymbolData sym binance_rates bybit_rates) :=
  alookup_foldl_upsert_symbols binance_rates bybit_rates sym symbols [] (Or.inl h)

/-! ## Claim theorems -/

/-- Counterexample to C1: the pair (long Binance / short Bybit) whose
Binance rate could not be fetched — its funding entry carries rate `0.0`
and an error marker — is NOT excluded from alerting: with the Bybit rate
at -0.01%, `check_for_alerts` keeps it, deciding with the substituted
zero long rate. -/
theorem c1_missing_rate_counterexample :
    ∃ (fi : List (String × RateInfo)) (be : RateInfo),
      alookup "BTCUSDT"
          (get_funding_rates ["BTCUSDT"] [] [("BTCUSDT", ⟨-(1/10000), 0, 8⟩)]) = some fi ∧
      alookup "binance" fi = some be ∧ be.rate = 0 ∧ be.error = some "API 查詢失敗" ∧
      ("BTCUSDT",
          (⟨"BTCUSDT", "binance", "bybit", 1, 1, 0, ⟨"BTCUSDT", "LONG", 1⟩,
            ⟨"BTCUSDT", "Sell", 1⟩⟩ : PairInfo)) ∈
        check_for_alerts 0
          (get_funding_rates ["BTCUSDT"] [] [("BTCUSDT", ⟨-(1/10000), 0, 8⟩)])
          [("BTCUSDT",
            ⟨"BTCUSDT", "binance", "bybit", 1, 1, 0, ⟨"BTCUSDT", "LONG", 1⟩,
              ⟨"BTCUSDT", "Sell", 1⟩⟩)] := by
  refine ⟨_, ⟨0, 0, some "API 查詢失敗"⟩, rfl, rfl, rfl, rfl, ?_⟩
  rw [mem_check_for_alerts]
  refine ⟨List.mem_cons_self _ _, ?_⟩
  norm_num [alert_pred, get_funding_rates, mkSymbolData, alookup, upsert,
    show ("binance" : String) ≠ "bybit" from by decide]

/-- C1 amended: when the Binance rate for a pair's long leg cannot be
fetched, `get_funding_rates` records that leg with rate `0.0` and a
distinguishable error marker, but `check_for_alerts` never consults the
marker: the pair is still evaluated with the substituted zero rate and
alerts exactly when `short_rate - 0 <= threshold`. -/
theorem c1_missing_rate_zero_substituted (symbols : List String)
    (binance_rates : List (String × BinanceRawRate))
    (bybit_rates : List (String × BybitRawRate)) (r : BybitRawRate)
    (sym : String) (pair_info : PairInfo) (threshold : ℚ)
    (hsym : sym ∈ symbols)
    (hb : alookup sym binance_rates = none)
    (hy : alookup sym bybit_rates = some r)
    (hlong : pair_info.long_exchange = "binance")
    (hshort : pair_info.short_exchange = "bybit") :
    ∃ (fi : List (String × RateInfo)) (be : RateInfo),
      alookup sym (get_funding_rates symbols binance_rates bybit_rates) = some fi ∧
      alookup "binance" fi = some be ∧ be.rate = 0 ∧ be.error = some "API 查詢失敗" ∧
      ((sym, pair_info) ∈
          check_for_alerts threshold (get_funding_rates symbols binance_rates bybit_rates)
            [(sym, pair_info)] ↔
        r.fundingRate * 100 - 0 ≤ threshold) := by
  have hfd : alookup sym (get_funding_rates symbols binance_rates bybit_rates) =
      some (mkSymbolData sym binance_rates bybit_rates) :=
    alookup_get_funding_rates symbols binance_rates bybit_rates sym hsym
  have hmk : mkSymbolData sym binance_rates bybit_rates =
      [("binance", ⟨0, 0, some "API 查詢失敗"⟩),
       ("bybit", ⟨r.fundingRate * 100, r.nextFundingTime, none⟩)] := by
    simp [mkSymbolData, hb, hy]
  have hpred : alert_pred threshold (get_funding_rates symbols binance_rates bybit_rates)
      (sym, pair_info) = decide (r.fundingRate * 100 - 0 ≤ threshold) := by
    simp only [alert_pred, hfd, hmk, hlong, hshort]
    norm_num [alookup, show ("binance" : String) ≠ "bybit" from by decide]
  refine ⟨mkSymbolData sym binance_rates bybit_rates, ⟨0, 0, some "API 查詢失敗"⟩,
    hfd, ?_, rfl, rfl, ?_⟩
  · rw [hmk]
    rfl
  · rw [mem_check_for_alerts, hpred]
    simp

/-- Witness for the amended C1 at a concrete input: one symbol, an empty
Binance rate dict, a Bybit rate of -0.0001. -/
theorem c1_missing_rate_witness :
    ∃ (fi : List (String × RateInfo)) (be : RateInfo),
      alookup "BTCUSDT"
          (get_funding_rates ["BTCUSDT"] [] [("BTCUSDT", ⟨-(1/10000), 0, 8⟩)]) = some fi ∧
      alookup "binance" fi = some be ∧ be.rate = 0 ∧ be.error = some "API 查詢失敗" ∧
      (("BTCUSDT",
          (⟨"BTCUSDT", "binance", "bybit", 2, 2, 0, ⟨"BTCUSDT", "LONG", 2⟩,
            ⟨"BTCUSDT", "Sell", 2⟩⟩ : PairInfo)) ∈
          check_for_alerts 0
            (get_funding_rates ["BTCUSDT"] [] [("BTCUSDT", ⟨-(1/10000), 0, 8⟩)])
            [("BTCUSDT",
              ⟨"BTCUSDT", "binance", "bybit", 2, 2, 0, ⟨"BTCUSDT", "LONG", 2⟩,
                ⟨"BTCUSDT", "Sell", 2⟩⟩)] ↔
        (-(1/10000) : ℚ) * 100 - 0 ≤ 0) :=
  c1_missing_rate_zero_substituted ["BTCUSDT"] [] [("BTCUSDT", ⟨-(1/10000), 0, 8⟩)]
    ⟨-(1/10000), 0, 8⟩ "BTCUSDT"
    ⟨"BTCUSDT", "binance", "bybit", 2, 2, 0, ⟨"BTCUSDT", "LONG", 2⟩, ⟨"BTCUSDT", "Sell", 2⟩⟩
    0 (List.mem_cons_self _ _) rfl rfl rfl rfl

/-- C2: for every matched pair whose two leg rates are present, the
computed spread is exactly `short_rate - long_rate`, and the pair is kept
by the alert check if and only if `spread <= threshold` — the boundary
spread counts as triggered. -/
theorem c2_spread_and_inclusive_threshold (threshold : ℚ)
    (pairs : List (String × PairInfo))
    (funding_data : List (String × List (String × RateInfo)))
    (sym : String) (pair_info : PairInfo)
    (funding_info : List (String × RateInfo)) (long_info short_info : RateInfo)
    (hmem : (sym, pair_info) ∈ pairs)
    (hfd : alookup sym funding_data = some funding_info)
    (hl : alookup pair_info.long_exchange funding_info = some long_info)
    (hs : alookup pair_info.short_exchange funding_info = some short_info) :
    calculate_rate_difference funding_info pair_info.long_exchange pair_info.short_exchange =
      short_info.rate - long_info.rate ∧
    ((sym, pair_info) ∈ check_for_alerts threshold funding_data pairs ↔
      short_info.rate - long_info.rate ≤ threshold) := by
  constructor
  · unfold calculate_rate_difference
    rw [hl, hs]
  · rw [mem_check_for_alerts]
    unfold alert_pred
    simp only [hfd, hl, hs, decide_eq_true_eq]
    exact ⟨fun h => h.2, fun h => ⟨hmem, h⟩⟩

/-- Witness for C2, at the spec's Scenario D (long +0.034%, short
+0.005%, threshold 0): the spread is -0.029% and the pair is kept. -/
theorem c2_spread_witness :
    calculate_rate_difference
        [("binance", ⟨34/1000, 0, none⟩), ("bybit", ⟨5/1000, 0, none⟩)]
        (PairInfo.long_exchange ⟨"X", "binance", "bybit", 1, 1, 0, ⟨"X", "LONG", 1⟩, ⟨"X", "Sell", 1⟩⟩)
        (PairInfo.short_exchange ⟨"X", "binance", "bybit", 1, 1, 0, ⟨"X", "LONG", 1⟩, ⟨"X", "Sell", 1⟩⟩) =
      (5/1000 : ℚ) - 34/1000 ∧
    (("X", (⟨"X", "binance", "bybit", 1, 1, 0, ⟨"X", "LONG", 1⟩, ⟨"X", "Sell", 1⟩⟩ : PairInfo)) ∈
        check_for_alerts 0
          [("X", [("binance", ⟨34/1000, 0, none⟩), ("bybit", ⟨5/1000, 0, none⟩)])]
          [("X", ⟨"X", "binance", "bybit", 1, 1, 0, ⟨"X", "LONG", 1⟩, ⟨"X", "Sell", 1⟩⟩)] ↔
      (5/1000 : ℚ) - 34/1000 ≤ 0) :=
  c2_spread_and_inclusive_threshold 0
    [("X", ⟨"X", "binance", "bybit", 1, 1, 0, ⟨"X", "LONG", 1⟩, ⟨"X", "Sell", 1⟩⟩)]
    [("X", [("binance", ⟨34/1000, 0, none⟩), ("bybit", ⟨5/1000, 0, none⟩)])]
    "X" ⟨"X", "binance", "bybit", 1, 1, 0, ⟨"X", "LONG", 1⟩, ⟨"X", "Sell", 1⟩⟩
    [("binance", ⟨34/1000, 0, none⟩), ("bybit", ⟨5/1000, 0, none⟩)]
    ⟨34/1000, 0, none⟩ ⟨5/1000, 0, none⟩
    (List.mem_cons_self _ _) rfl rfl rfl

/-- Counterexample to C3: a failed check (`success = false`) recorded
together with a pair whose differential result is fully usable (its
symbol has funding data with both leg rates present) leaves the
per-symbol statistics untouched — no `SymbolStatistics` is created, no
`check_count` incremented, no spread appended. -/
theorem c3_failed_check_counterexample :
    (record_check_result (StatisticsCollector.mkInit 0) 0 false
        [("X", ⟨"X", "binance", "bybit", 1, 1, 0, ⟨"X", "LONG", 1⟩, ⟨"X", "Sell", 1⟩⟩)]
        [("X", [("binance", ⟨34/1000, 0, none⟩), ("bybit", ⟨5/1000, 0, none⟩)])]
        none).symbol_stats = [] ∧
    alookup "binance"
        [("binance", (⟨34/1000, 0, none⟩ : RateInfo)), ("bybit", ⟨5/1000, 0, none⟩)] =
      some ⟨34/1000, 0, none⟩ ∧
    alookup "bybit"
        [("binance", (⟨34/1000, 0, none⟩ : RateInfo)), ("bybit", ⟨5/1000, 0, none⟩)] =
      some ⟨5/1000, 0, none⟩ :=
  ⟨rfl, rfl, rfl⟩

/-- C3 amended: every call to `record_check_result` increments the total
check count by one and the failed count exactly when `success` is false;
and when the check SUCCEEDED, every pair whose symbol has funding data
with both leg exchanges present gets its `SymbolStatistics` created or
updated — `check_count` incremented, the spread `short - long` appended,
`current_rate_diff` set to it.  (On a failed check the source skips all
per-symbol updates, which is what the counterexample exhibits.) -/
theorem c3_record_check_result (st : StatisticsCollector) (now : ℚ) (success : Bool)
    (pairs : List (String × PairInfo))
    (funding_data : List (String × List (String × RateInfo))) (msg : Option String) :
    get_total_checks (record_check_result st now success pairs funding_data msg) =
      get_total_checks st + 1 ∧
    get_failed_checks (record_check_result st now success pairs funding_data msg) =
      get_failed_checks st + (if success then 0 else 1) ∧
    (success = true → (dkeys pairs).Nodup →
      ∀ (sym : String) (pair_info : PairInfo) (funding_info : List (String × RateInfo))
        (long_info short_info : RateInfo),
      (sym, pair_info) ∈ pairs →
      alookup sym funding_data = some funding_info →
      alookup pair_info.long_exchange funding_info = some long_info →
      alookup pair_info.short_exchange funding_info = some short_info →
      alookup sym (record_check_result st now success pairs funding_data msg).symbol_stats =
        some (updated_symbol_stats (alookup sym st.symbol_stats) sym
          (short_info.rate - long_info.rate))) := by
  refine ⟨?_, ?_, ?_⟩
  · simp [get_total_checks, record_check_result]
  · cases success <;> simp [get_failed_checks, record_check_result, List.filter_append]
  · rintro rfl hnd sym pair_info funding_info long_info short_info hmem hfd hl hs
    have hpairs : pairs.isEmpty = false := by
      cases pairs with
      | nil => cases hmem
      | cons hd tl => rfl
    have hfdne : funding_data.isEmpty = false := by
      cases funding_data with
      | nil => cases hfd
      | cons hd tl => rfl
    show alookup sym
        (if true && !pairs.isEmpty && !funding_data.isEmpty then
          update_symbol_stats st.symbol_stats pairs funding_data
        else st.symbol_stats) = _
    rw [hpairs, hfdne]
    simp only [Bool.not_false, Bool.and_true, Bool.true_and, if_pos rfl]
    exact update_symbol_stats_mem hfd hl hs st.symbol_stats hnd hmem

/-- Witness for the amended C3 at a concrete input: one successful check
with one fully usable pair, starting from a fresh collector. -/
theorem c3_record_check_witness :
    get_total_checks (record_check_result (StatisticsCollector.mkInit 0) 0 true
        [("X", ⟨"X", "binance", "bybit", 1, 1, 0, ⟨"X", "LONG", 1⟩, ⟨"X", "Sell", 1⟩⟩)]
        [("X", [("binance", ⟨34/1000, 0, none⟩), ("bybit", ⟨5/1000, 0, none⟩)])] none) =
      get_total_checks (StatisticsCollector.mkInit 0) + 1 ∧
    alookup "X" (record_check_result (StatisticsCollector.mkInit 0) 0 true
        [("X", ⟨"X", "binance", "bybit", 1, 1, 0, ⟨"X", "LONG", 1⟩, ⟨"X", "Sell", 1⟩⟩)]
        [("X", [("binance", ⟨34/1000, 0, none⟩), ("bybit", ⟨5/1000, 0, none⟩)])]
        none).symbol_stats =
      some (updated_symbol_stats
        (alookup "X" (StatisticsCollector.mkInit 0).symbol_stats) "X"
        ((5/1000 : ℚ) - 34/1000)) := by
  have h := c3_record_check_result (StatisticsCollector.mkInit 0) 0 true
    [("X", ⟨"X", "binance", "bybit", 1, 1, 0, ⟨"X", "LONG", 1⟩, ⟨"X", "Sell", 1⟩⟩)]
    [("X", [("binance", ⟨34/1000, 0, none⟩), ("bybit", ⟨5/1000, 0, none⟩)])] none
  exact ⟨h.1, h.2.2 rfl (by decide) "X"
    ⟨"X", "binance", "bybit", 1, 1, 0, ⟨"X", "LONG", 1⟩, ⟨"X", "Sell", 1⟩⟩
    [("binance", ⟨34/1000, 0, none⟩), ("bybit", ⟨5/1000, 0, none⟩)]
    ⟨34/1000, 0, none⟩ ⟨5/1000, 0, none⟩
    (List.mem_cons_self _ _) rfl rfl rfl⟩

/-- C4: when the two sizes recorded for an instrument on the two
exchanges differ by more than 5% of their average, the matcher produces
no arbitrage pair for that instrument. -/
theorem c4_size_tolerance_rejects (binance_positions bybit_positions : List RawPosition)
    (sym : String) (bpos ypos : PosEntry)
    (hb : alookup sym (buildPosMap "binance" binance_positions) = some bpos)
    (hy : alookup sym (buildPosMap "bybit" bybit_positions) = some ypos)
    (hratio : |bpos.size - ypos.size| / ((bpos.size + ypos.size) / 2) > 5 / 100) :
    alookup sym (find_arbitrage_pairs binance_positions bybit_positions) = none := by
  have havg : (bpos.size + ypos.size) / 2 > 0 := by
    rcases lt_trichotomy ((bpos.size + ypos.size) / 2) 0 with hlt | heq | hgt
    · have hle : |bpos.size - ypos.size| / ((bpos.size + ypos.size) / 2) ≤ 0 :=
        div_nonpos_of_nonneg_of_nonpos (abs_nonneg _) hlt.le
      linarith
    · rw [heq, div_zero] at hratio
      norm_num at hratio
    · exact hgt
  exact find_go_alookup_none _ _ sym bpos ypos
    (buildPosMap_keys_nodup "binance" binance_positions) hb hy havg hratio

/-- Witness for C4 at the spec's Scenario B (sizes 1.0 vs 1.2, ratio
about 18%): no pair is produced. -/
theorem c4_size_tolerance_witness :
    |(1 : ℚ) - 6/5| / (((1 : ℚ) + 6/5) / 2) > 5 / 100 ∧
    alookup "BTCUSDT"
        (find_arbitrage_pairs [⟨"BTCUSDT", "LONG", 1⟩] [⟨"BTCUSDT", "Sell", 6/5⟩]) = none :=
  ⟨by rw [abs_sub_comm]; norm_num [abs_of_nonneg],
    c4_size_tolerance_rejects [⟨"BTCUSDT", "LONG", 1⟩] [⟨"BTCUSDT", "Sell", 6/5⟩]
      "BTCUSDT" (mkPosEntry "binance" ⟨"BTCUSDT", "LONG", 1⟩)
      (mkPosEntry "bybit" ⟨"BTCUSDT", "Sell", 6/5⟩) rfl rfl
      (by rw [show (mkPosEntry "binance" ⟨"BTCUSDT", "LONG", 1⟩).size = 1 from rfl,
            show (mkPosEntry "bybit" ⟨"BTCUSDT", "Sell", 6/5⟩).size = 6/5 from rfl,
            abs_sub_comm]
          norm_num [abs_of_nonneg])⟩

/-- C9: when both legs of an instrument have size exactly 0, the 5%
tolerance test is skipped (its division is guarded by `size_avg > 0`) and
the matcher still produces the arbitrage pair, provided the sides are
opposite. -/
theorem c9_zero_size_pair_produced (binance_positions bybit_positions : List RawPosition)
    (sym : String) (bpos ypos : PosEntry)
    (hb : alookup sym (buildPosMap "binance" binance_positions) = some bpos)
    (hy : alookup sym (buildPosMap "bybit" bybit_positions) = some ypos)
    (hbz : bpos.size = 0) (hyz : ypos.size = 0) (hside : bpos.side ≠ ypos.side) :
    alookup sym (find_arbitrage_pairs binance_positions bybit_positions) =
      some (mkPair sym bpos ypos) := by
  apply find_go_alookup_some _ _ sym bpos ypos hb hy hside
  rintro ⟨h1, -⟩
  rw [hbz, hyz] at h1
  norm_num at h1

/-- Witness for C9: a LONG Binance leg and a Sell (SHORT) Bybit leg, both
of size 0, still match into a pair. -/
theorem c9_zero_size_witness :
    (mkPosEntry "binance" ⟨"X", "LONG", 0⟩).size = 0 ∧
    (mkPosEntry "bybit" ⟨"X", "Sell", 0⟩).size = 0 ∧
    alookup "X" (find_arbitrage_pairs [⟨"X", "LONG", 0⟩] [⟨"X", "Sell", 0⟩]) =
      some (mkPair "X" (mkPosEntry "binance" ⟨"X", "LONG", 0⟩)
        (mkPosEntry "bybit" ⟨"X", "Sell", 0⟩)) :=
  ⟨rfl, rfl,
    c9_zero_size_pair_produced [⟨"X", "LONG", 0⟩] [⟨"X", "Sell", 0⟩] "X"
      (mkPosEntry "binance" ⟨"X", "LONG", 0⟩) (mkPosEntry "bybit" ⟨"X", "Sell", 0⟩)
      rfl rfl rfl rfl (by decide)⟩

/-- C6: for position lists whose normalized sides are LONG or SHORT (the
data-model vocabulary), every produced pair's two legs reference the same
instrument id, on the two distinct exchanges, with one LONG and one SHORT
leg consistent with the recorded long/short exchange; and the returned
collection holds at most one pair per instrument id (its keys are
duplicate-free). -/
theorem c6_pair_leg_invariants (binance_positions bybit_positions : List RawPosition)
    (hbside : ∀ p ∈ binance_positions,
      normalize_side p.side "binance" = "LONG" ∨ normalize_side p.side "binance" = "SHORT")
    (hyside : ∀ p ∈ bybit_positions,
      normalize_side p.side "bybit" = "LONG" ∨ normalize_side p.side "bybit" = "SHORT") :
    (∀ (sym : String) (pair_info : PairInfo),
      (sym, pair_info) ∈ find_arbitrage_pairs binance_positions bybit_positions →
      normalize_symbol pair_info.binance_position.symbol "binance" = sym ∧
      normalize_symbol pair_info.bybit_position.symbol "bybit" = sym ∧
      pair_info.long_exchange ≠ pair_info.short_exchange ∧
      ((normalize_side pair_info.binance_position.side "binance" = "LONG" ∧
        normalize_side pair_info.bybit_position.side "bybit" = "SHORT" ∧
        pair_info.long_exchange = "binance" ∧ pair_info.short_exchange = "bybit") ∨
       (normalize_side pair_info.binance_position.side "binance" = "SHORT" ∧
        normalize_side pair_info.bybit_position.side "bybit" = "LONG" ∧
        pair_info.long_exchange = "bybit" ∧ pair_info.short_exchange = "binance"))) ∧
    (dkeys (find_arbitrage_pairs binance_positions bybit_positions)).Nodup := by
  constructor
  · intro sym pair_info h
    obtain ⟨bpos, ypos, hmem, hy, hside, hpi⟩ := mem_find_go _ _ sym pair_info h
    obtain ⟨p, hp, hsymp, hep⟩ := buildPosMap_mem "binance" binance_positions sym bpos hmem
    obtain ⟨q, hq, hsymq, heq2⟩ :=
      buildPosMap_mem "bybit" bybit_positions sym ypos (mem_of_alookup_eq_some hy)
    subst hep
    subst heq2
    subst hpi
    have hside' : normalize_side p.side "binance" ≠ normalize_side q.side "bybit" := hside
    have hbs := hbside p hp
    have hys := hyside q hq
    by_cases hL : normalize_side p.side "binance" = "LONG"
    · have hysS : normalize_side q.side "bybit" = "SHORT" := by
        rcases hys with hys | hys
        · exact absurd (hL.trans hys.symm) hside'
        · exact hys
      unfold mkPair
      rw [if_pos (show (mkPosEntry "binance" p).side = "LONG" from hL)]
      dsimp only [mkPosEntry]
      exact ⟨hsymp.symm, hsymq.symm, by decide, Or.inl ⟨hL, hysS, rfl, rfl⟩⟩
    · have hS : normalize_side p.side "binance" = "SHORT" := hbs.resolve_left hL
      have hysL : normalize_side q.side "bybit" = "LONG" := by
        rcases hys with hys | hys
        · exact hys
        · exact absurd (hS.trans hys.symm) hside'
      unfold mkPair
      rw [if_neg (show ¬(mkPosEntry "binance" p).side = "LONG" from hL)]
      dsimp only [mkPosEntry]
      exact ⟨hsymp.symm, hsymq.symm, by decide, Or.inr ⟨hS, hysL, rfl, rfl⟩⟩
  · exact (buildPosMap_keys_nodup "binance" binance_positions).sublist
      (find_go_dkeys_sublist _ _)

/-- Witness for C6 at the spec's Scenario A inputs (Binance LONG 1.0,
Bybit Sell 1.02). -/
theorem c6_pair_leg_witness :
    (∀ (sym : String) (pair_info : PairInfo),
      (sym, pair_info) ∈
          find_arbitrage_pairs [⟨"BTCUSDT", "LONG", 1⟩] [⟨"BTCUSDT", "Sell", 51/50⟩] →
      normalize_symbol pair_info.binance_position.symbol "binance" = sym ∧
      normalize_symbol pair_info.bybit_position.symbol "bybit" = sym ∧
      pair_info.long_exchange ≠ pair_info.short_exchange ∧
      ((normalize_side pair_info.binance_position.side "binance" = "LONG" ∧
        normalize_side pair_info.bybit_position.side "bybit" = "SHORT" ∧
        pair_info.long_exchange = "binance" ∧ pair_info.short_exchange = "bybit") ∨
       (normalize_side pair_info.binance_position.side "binance" = "SHORT" ∧
        normalize_side pair_info.bybit_position.side "bybit" = "LONG" ∧
        pair_info.long_exchange = "bybit" ∧ pair_info.short_exchange = "binance"))) ∧
    (dkeys (find_arbitrage_pairs [⟨"BTCUSDT", "LONG", 1⟩] [⟨"BTCUSDT", "Sell", 51/50⟩])).Nodup :=
  c6_pair_leg_invariants [⟨"BTCUSDT", "LONG", 1⟩] [⟨"BTCUSDT", "Sell", 51/50⟩]
    (by decide) (by decide)

/-- C5 (code bug): contrary to the claim — and to the source's own
except-branch comment — the collector is reset even when summary delivery
fails: the notifier returns `false` instead of raising, the caller
discards that Boolean, so `send_summary_report` wipes the window
regardless of `delivered`.  At the failing input (one recorded check,
failed delivery) the accumulated totals are gone instead of being kept
for the next window. -/
theorem c5_reset_despite_failed_delivery :
    (∀ (st : StatisticsCollector) (delivered : Bool) (now : ℚ),
      send_summary_report st delivered now = reset_stats st now) ∧
    get_total_checks
        (record_check_result (StatisticsCollector.mkInit 0) 0 false [] [] none) = 1 ∧
    get_total_checks
        (send_summary_report
          (record_check_result (StatisticsCollector.mkInit 0) 0 false [] [] none) false 1) = 0 ∧
    (send_summary_report
        (record_check_result (StatisticsCollector.mkInit 0) 0 false [] [] none) false
        1).symbol_stats = [] :=
  ⟨fun _ _ _ => rfl, rfl, rfl, rfl⟩

/-- C7: immediately after `reset_stats`, the reported total check count is
0 and the per-symbol statistics mapping is empty. -/
theorem c7_reset_clears (st : StatisticsCollector) (now : ℚ) :
    get_total_checks (reset_stats st now) = 0 ∧ (reset_stats st now).symbol_stats = [] :=
  ⟨rfl, rfl⟩

/-- C8: `record_check_result` never decreases the total check count, and
`record_alert` never decreases any symbol's `alert_count`. -/
theorem c8_monotonicity (st : StatisticsCollector) (now : ℚ) (success : Bool)
    (pairs : List (String × PairInfo))
    (fd : List (String × List (String × RateInfo))) (msg : Option String)
    (sym sym' : String) :
    get_total_checks st ≤ get_total_checks (record_check_result st now success pairs fd msg) ∧
    alert_count_of st sym' ≤ alert_count_of (record_alert st sym) sym' := by
  constructor
  · simp [get_total_checks, record_check_result]
  · by_cases h : sym' = sym
    · subst h
      cases halook : alookup sym' st.symbol_stats with
      | none =>
          simp [alert_count_of, record_alert, halook, alookup_upsert_self]
      | some s =>
          simp [alert_count_of, record_alert, halook, alookup_upsert_self]
    · unfold alert_count_of record_alert
      rw [alookup_upsert_ne h]

/-- C10: `record_alert` on a symbol with no prior checks creates an entry
with `check_count = 0` and `alert_count = 1`, whose reported alert rate is
`0.0`; and since `alert_count` is not bounded by `check_count`, a state
with two alerts but one recorded check reports an alert rate above 100. -/
theorem c10_alert_rate_edge_cases :
    alookup "X" (record_alert (StatisticsCollector.mkInit 0) "X").symbol_stats =
      some ⟨"X", 0, 1, [], 0⟩ ∧
    SymbolStats.alert_rate ⟨"X", 0, 1, [], 0⟩ = 0 ∧
    (∃ s : SymbolStats,
      alookup "X" (record_check_result
          (record_alert (record_alert (StatisticsCollector.mkInit 0) "X") "X") 0 true
          [("X", ⟨"X", "binance", "bybit", 1, 1, 0, ⟨"X", "LONG", 1⟩, ⟨"X", "Sell", 1⟩⟩)]
          [("X", [("binance", ⟨34/1000, 0, none⟩), ("bybit", ⟨5/1000, 0, none⟩)])]
          none).symbol_stats = some s ∧
      s.check_count < s.alert_count ∧ 100 < s.alert_rate) := by
  refine ⟨by decide, by decide, ⟨"X", 1, 2, [-(29/1000)], -(29/1000)⟩, ?_, by decide, ?_⟩
  · norm_num [record_check_result, record_alert, update_symbol_stats, update_one_symbol,
      alookup, upsert, StatisticsCollector.mkInit, SymbolStats.mkDefault,
      show ("binance" : String) ≠ "bybit" from by decide]
  · norm_num [SymbolStats.alert_rate]

end FRM
